import Mathlib

/-!
Shallow embedding of the relationship-inference engine of
src/generators/schema-processors/createDBSchemaSpec.js.

The engine consumes a DMMF-like graph (models with fields) and produces
many-to-many, one-to-many and one-to-one relationship records.  JavaScript
runtime errors (property access on undefined) are modelled by Option, with
none standing for a thrown exception; JavaScript object literals with
computed (possibly colliding) keys are modelled by an insertion-with-
overwrite association list.
-/

namespace SchemaSpec

/-- A DMMF field, mirroring the attributes the source reads:
name, kind, type, isList, isRequired, isId, isUnique, relationName. -/
structure Field where
  name : String
  kind : String
  type : String
  isList : Bool
  isRequired : Bool
  isId : Bool
  isUnique : Bool
  relationName : Option String
deriving Repr, DecidableEq

/-- A DMMF model: a name and an ordered list of fields. -/
structure Model where
  name : String
  fields : List Field
deriving Repr, DecidableEq

/-- The datamodel object of the DMMF. -/
structure Datamodel where
  models : List Model
deriving Repr, DecidableEq

/-- The DMMF root object, as consumed by the three classifiers. -/
structure DMMF where
  datamodel : Datamodel
deriving Repr, DecidableEq

/-- One side of a relationship record: an entity name and a field name. -/
structure RelEnd where
  name : String
  field : String
deriving Repr, DecidableEq

/-- A record of the oneToMany output, pushed by getOneToManyRelations as
an object with keys many and one (in that order in the source). -/
structure OneToManyRecord where
  many : RelEnd
  one : RelEnd
deriving Repr, DecidableEq

/-- The value returned by getOneToManyRelations: an object with the single
key manyToOne holding the list of records. -/
structure OneToManyOutput where
  manyToOne : List OneToManyRecord
deriving Repr, DecidableEq

/-- A record of the oneToOne output. -/
structure OneToOneRecord where
  table_one : RelEnd
  table_two : RelEnd
deriving Repr, DecidableEq

/-- The junctionTable object of a manyToMany record: its name key plus the
computed-key entries.  Computed keys may collide, so the entries are an
association list built with overwrite-on-collision semantics. -/
structure JunctionTable where
  name : String
  entries : List (String × String)
deriving Repr, DecidableEq

/-- A record of the manyToMany output. -/
structure MMRecord where
  relationTable : List RelEnd
  junctionTable : JunctionTable
deriving Repr, DecidableEq

/-- JavaScript toLowerCase on a string, as a list of characters. -/
def jsToLowerCase (s : String) : List Char :=
  s.data.map Char.toLower

/-- JavaScript String.prototype.includes: sub occurs contiguously in s. -/
def jsIncludes (s sub : List Char) : Bool :=
  (List.range (s.length + 1)).any (fun i => sub.isPrefixOf (s.drop i))

/-- JavaScript object-literal insertion of a computed key: if the key is
already present its value is overwritten in place, otherwise the pair is
appended. -/
def insertObj (l : List (String × String)) (k v : String) : List (String × String) :=
  if l.any (fun p => p.1 == k) then
    l.map (fun p => if p.1 == k then (k, v) else p)
  else
    l ++ [(k, v)]

/-- The scalar-field pick of getManyToManyRelations for one side:
the first scalar field whose lowercased name includes the lowercased
related-entity name, with positional fallback.  A falsy left operand (no match, or an empty
name) falls back to positional indexing; indexing past the end of the
array makes the subsequent .name access throw, modelled as none. -/
def jsPickScalar (scalarFields : List Field) (relatedName : String) (fallbackIndex : Nat) : Option String :=
  match scalarFields.find? (fun f => jsIncludes (jsToLowerCase f.name) (jsToLowerCase relatedName)) with
  | some f => if f.name = "" then (scalarFields[fallbackIndex]?).map Field.name else some f.name
  | none => (scalarFields[fallbackIndex]?).map Field.name

/-- The body of the forEach of getManyToManyRelations for one junction
candidate.  some none models an early return (candidate skipped), none
models a thrown exception, some (some r) an emitted record. -/
def processJunction (dmmf : DMMF) (junctionModel : Model) : Option (Option MMRecord) :=
  match junctionModel.fields.filter (fun f => f.kind == "object") with
  | [field1, field2] =>
    match dmmf.datamodel.models.find? (fun m => m.name == field1.type) with
    | none => some none
    | some relatedModel1 =>
      match dmmf.datamodel.models.find? (fun m => m.name == field2.type) with
      | none => some none
      | some relatedModel2 =>
        match relatedModel1.fields.find? (fun f => f.kind == "object" && f.type == junctionModel.name && f.isList) with
        | none => some none
        | some reciprocalField1 =>
          match relatedModel2.fields.find? (fun f => f.kind == "object" && f.type == junctionModel.name && f.isList) with
          | none => some none
          | some reciprocalField2 =>
            match jsPickScalar (junctionModel.fields.filter (fun f => f.kind == "scalar")) relatedModel1.name 0 with
            | none => none
            | some v1 =>
              match jsPickScalar (junctionModel.fields.filter (fun f => f.kind == "scalar")) relatedModel2.name 1 with
              | none => none
              | some v2 =>
                some (some
                  { relationTable := [⟨relatedModel1.name, reciprocalField1.name⟩,
                                      ⟨relatedModel2.name, reciprocalField2.name⟩],
                    junctionTable := ⟨junctionModel.name,
                      insertObj (insertObj [] (relatedModel1.name ++ "Field") v1)
                        (relatedModel2.name ++ "Field") v2⟩ })
  | _ => some none

/-- The forEach of getManyToManyRelations over the junction candidates,
collecting the pushed records in order; a thrown exception aborts the
whole run (none). -/
def mmRun (dmmf : DMMF) : List Model → Option (List MMRecord)
  | [] => some []
  | jm :: rest =>
    match processJunction dmmf jm with
    | none => none
    | some none => mmRun dmmf rest
    | some (some r) => (mmRun dmmf rest).map (fun l => r :: l)

/-- getManyToManyRelations: filter the models with exactly two object
fields and process each candidate. -/
def getManyToManyRelations (dmmf : DMMF) : Option (List MMRecord) :=
  mmRun dmmf (dmmf.datamodel.models.filter
    (fun m => (m.fields.filter (fun f => f.kind == "object")).length == 2))

/-- The body of the inner loop of getOneToManyRelations for one field of
one model, threading the accumulated oneToMany array. -/
def otmStep (models : List Model) (model : Model) (acc : List OneToManyRecord) (field : Field) : List OneToManyRecord :=
  if field.kind == "object" && field.isList && models.any (fun m => m.name == field.type) then
    match models.find? (fun m => m.name == field.type) with
    | none => acc
    | some relatedModel =>
      match relatedModel.fields.find? (fun f =>
          f.kind == "object" && !f.isList && f.type == model.name && f.relationName == field.relationName) with
      | none => acc
      | some reciprocalField =>
        if acc.any (fun rel =>
            rel.one.name == model.name && rel.one.field == field.name &&
            rel.many.name == relatedModel.name && rel.many.field == reciprocalField.name) then
          acc
        else
          acc ++ [{ many := ⟨relatedModel.name, reciprocalField.name⟩,
                    one := ⟨model.name, field.name⟩ }]
  else acc

/-- The inner field loop of getOneToManyRelations. -/
def otmFields (models : List Model) (model : Model) (acc : List OneToManyRecord) : List Field → List OneToManyRecord
  | [] => acc
  | f :: fs => otmFields models model (otmStep models model acc f) fs

/-- The outer model loop of getOneToManyRelations. -/
def otmModels (models : List Model) (acc : List OneToManyRecord) : List Model → List OneToManyRecord
  | [] => acc
  | m :: ms => otmModels models (otmFields models m acc m.fields) ms

/-- getOneToManyRelations: returns the object with key manyToOne. -/
def getOneToManyRelations (dmmf : DMMF) : OneToManyOutput :=
  ⟨otmModels dmmf.datamodel.models [] dmmf.datamodel.models⟩

/-- The body of the inner loop of getOneToOneRelations for one field of
one model, threading the accumulated oneToOne array. -/
def ooStep (models : List Model) (model : Model) (acc : List OneToOneRecord) (field : Field) : List OneToOneRecord :=
  if field.kind == "object" && !field.isList then
    match models.find? (fun m => m.name == field.type) with
    | none => acc
    | some relatedModel =>
      match relatedModel.fields.find? (fun f =>
          f.kind == "object" && !f.isList && f.type == model.name && f.relationName == field.relationName) with
      | none => acc
      | some relatedField =>
        if acc.any (fun rel =>
            (rel.table_one.name == model.name && rel.table_one.field == field.name &&
             rel.table_two.name == field.type && rel.table_two.field == relatedField.name) ||
            (rel.table_one.name == field.type && rel.table_one.field == relatedField.name &&
             rel.table_two.name == model.name && rel.table_two.field == field.name)) then
          acc
        else
          acc ++ [{ table_one := ⟨model.name, field.name⟩,
                    table_two := ⟨field.type, relatedField.name⟩ }]
  else acc

/-- The inner field loop of getOneToOneRelations. -/
def ooFields (models : List Model) (model : Model) (acc : List OneToOneRecord) : List Field → List OneToOneRecord
  | [] => acc
  | f :: fs => ooFields models model (ooStep models model acc f) fs

/-- The outer model loop of getOneToOneRelations. -/
def ooModels (models : List Model) (acc : List OneToOneRecord) : List Model → List OneToOneRecord
  | [] => acc
  | m :: ms => ooModels models (ooFields models m acc m.fields) ms

/-- getOneToOneRelations. -/
def getOneToOneRelations (dmmf : DMMF) : List OneToOneRecord :=
  ooModels dmmf.datamodel.models [] dmmf.datamodel.models

/-! Concrete input graphs used by counterexamples and witnesses. -/

/-- A field literal with the attributes the classifiers read. -/
def fld (n k t : String) (lst : Bool) (rel : Option String) : Field :=
  ⟨n, k, t, lst, true, false, false, rel⟩

/-- Entity A of the junction graph gMM: an id and a reciprocal list field
js typed J. -/
def aModel : Model :=
  ⟨"A", [fld "id" "scalar" "Int" false none, fld "js" "object" "J" true (some "AJ")]⟩

/-- Entity B of the junction graph gMM. -/
def bModel : Model :=
  ⟨"B", [fld "id" "scalar" "Int" false none, fld "js" "object" "J" true (some "BJ")]⟩

/-- The junction J of gMM: two scalar foreign-key fields aId, bId and two
non-list object fields a, b whose relation names pair with A.js and B.js. -/
def jModel : Model :=
  ⟨"J", [fld "aId" "scalar" "Int" false none, fld "bId" "scalar" "Int" false none,
         fld "a" "object" "A" false (some "AJ"), fld "b" "object" "B" false (some "BJ")]⟩

/-- A classic junction graph: entities A and B connected by junction J. -/
def gMM : DMMF := ⟨⟨[aModel, bModel, jModel]⟩⟩

/-- Department of Scenario A: an id and an employees list typed Employee. -/
def deptModel : Model :=
  ⟨"Department", [fld "id" "scalar" "Int" false none,
                  fld "employees" "object" "Employee" true (some "DeptEmp")]⟩

/-- Employee of Scenario A: an id and a singular department reference. -/
def empModel : Model :=
  ⟨"Employee", [fld "id" "scalar" "Int" false none,
                fld "department" "object" "Department" false (some "DeptEmp")]⟩

/-- Scenario A of the specification: Department with an employees list,
Employee with a singular department reference, correlated relation names. -/
def gScenA : DMMF := ⟨⟨[deptModel, empModel]⟩⟩

/-- The junction J of gCrash: no scalar fields at all. -/
def jCrash : Model :=
  ⟨"J", [fld "a" "object" "A" false (some "AJ"), fld "b" "object" "B" false (some "BJ")]⟩

/-- The gMM junction graph with all scalar fields removed from J: both
reciprocal list fields still resolve, but the junction has no scalar
field for the positional fallback to index. -/
def gCrash : DMMF := ⟨⟨[aModel, bModel, jCrash]⟩⟩

/-- Entity Q of gSelf, holding the reciprocal list field ps typed P. -/
def qModel : Model :=
  ⟨"Q", [fld "id" "scalar" "Int" false none, fld "ps" "object" "P" true none]⟩

/-- The junction P of gSelf: both object fields reference the same Q; the
scalar names fst and snd do not contain the related entity name q. -/
def pModel : Model :=
  ⟨"P", [fld "fst" "scalar" "Int" false none, fld "snd" "scalar" "Int" false none,
         fld "x" "object" "Q" false none, fld "y" "object" "Q" false none]⟩

/-- A junction graph whose junction references the same entity twice. -/
def gSelf : DMMF := ⟨⟨[qModel, pModel]⟩⟩

/-- The two-object-field model of gC7. -/
def mC7 : Model :=
  ⟨"M", [fld "mid" "scalar" "Int" false none,
         fld "x" "object" "A" false none, fld "y" "object" "B" false none]⟩

/-- A boundary graph: M has exactly two object fields referencing A and B,
B exposes a reciprocal list field typed M, but A does not. -/
def gC7 : DMMF := ⟨⟨[
  ⟨"A", [fld "id" "scalar" "Int" false none]⟩,
  ⟨"B", [fld "id" "scalar" "Int" false none, fld "ms" "object" "M" true none]⟩,
  mC7]⟩⟩

/-- The model of gDrop holding the unresolvable field x typed Ghost. -/
def mDrop : Model :=
  ⟨"M", [fld "x" "object" "Ghost" false none, fld "y" "object" "A" false none]⟩

/-- A graph where the object field x of M has a type Ghost that matches no
model name. -/
def gDrop : DMMF := ⟨⟨[mDrop, ⟨"A", [fld "ms" "object" "M" true none]⟩]⟩⟩

/-! Helper lemmas. -/

theorem nodup_map_inj {α β : Type} {key : α → β} {l : List α}
    (h : (l.map key).Nodup) {a b : α}
    (ha : a ∈ l) (hb : b ∈ l) (hn : key a = key b) : a = b := by
  induction l with
  | nil => cases ha
  | cons m t ih =>
    rw [List.map_cons, List.nodup_cons] at h
    rcases List.mem_cons.mp ha with rfl | ha' <;> rcases List.mem_cons.mp hb with rfl | hb'
    · rfl
    · exact absurd (show key a ∈ t.map key by
        rw [hn]; exact List.mem_map.mpr ⟨b, hb', rfl⟩) h.1
    · exact absurd (show key b ∈ t.map key by
        rw [← hn]; exact List.mem_map.mpr ⟨a, ha', rfl⟩) h.1
    · exact ih h.2 ha' hb'

theorem string_append_cancel {a b c : String} (h : a ++ c = b ++ c) : a = b := by
  cases a with | mk da =>
  cases b with | mk db =>
  cases c with | mk dc =>
  have h' : da ++ dc = db ++ dc := congrArg String.data h
  exact congrArg String.mk (List.append_cancel_right h')

theorem pj_junction_name {g : DMMF} {m : Model} {r : MMRecord}
    (h : processJunction g m = some (some r)) : r.junctionTable.name = m.name := by
  unfold processJunction at h
  repeat' split at h
  all_goals first
    | exact Option.noConfusion h
    | exact Option.noConfusion (Option.some.inj h)
    | (obtain rfl : _ = r := Option.some.inj (Option.some.inj h); rfl)

theorem pj_two_object_fields {g : DMMF} {m : Model} {r : MMRecord}
    (h : processJunction g m = some (some r)) :
    ((m.fields.filter (fun f => f.kind == "object")).length == 2) = true := by
  unfold processJunction at h
  split at h
  next f1 f2 heq => rw [heq]; rfl
  next => simp at h

theorem mmRun_sound {g : DMMF} : ∀ {ms : List Model} {l : List MMRecord},
    mmRun g ms = some l → ∀ r ∈ l, ∃ m ∈ ms, processJunction g m = some (some r) := by
  intro ms
  induction ms with
  | nil =>
    intro l h r hr
    simp only [mmRun] at h
    cases h; cases hr
  | cons jm rest ih =>
    intro l h r hr
    simp only [mmRun] at h
    split at h
    · cases h
    · obtain ⟨m, hm, hp⟩ := ih h r hr
      exact ⟨m, List.mem_cons_of_mem _ hm, hp⟩
    · next r' heq =>
      obtain ⟨l', hl', rfl⟩ := Option.map_eq_some'.mp h
      rcases List.mem_cons.mp hr with rfl | hr'
      · exact ⟨jm, List.mem_cons_self _ _, heq⟩
      · obtain ⟨m, hm, hp⟩ := ih hl' r hr'
        exact ⟨m, List.mem_cons_of_mem _ hm, hp⟩

theorem mmRun_mem {g : DMMF} : ∀ {ms : List Model} {m : Model} {r0 : MMRecord} {l : List MMRecord},
    m ∈ ms → processJunction g m = some (some r0) → mmRun g ms = some l → r0 ∈ l := by
  intro ms
  induction ms with
  | nil => intro m r0 l hm; cases hm
  | cons jm rest ih =>
    intro m r0 l hm hp h
    simp only [mmRun] at h
    rcases List.mem_cons.mp hm with rfl | hm'
    · simp only [hp] at h
      obtain ⟨l', _, rfl⟩ := Option.map_eq_some'.mp h
      exact List.mem_cons_self _ _
    · split at h
      · cases h
      · exact ih hm' hp h
      · obtain ⟨l', hl', rfl⟩ := Option.map_eq_some'.mp h
        exact List.mem_cons_of_mem _ (ih hm' hp hl')

theorem mmRun_count {g : DMMF} : ∀ {ms : List Model} {m : Model} {r0 : MMRecord} {l : List MMRecord},
    (ms.map Model.name).Nodup → m ∈ ms → processJunction g m = some (some r0) →
    mmRun g ms = some l →
    (l.filter (fun r => r.junctionTable.name == m.name)).length = 1 := by
  intro ms
  induction ms with
  | nil => intro m r0 l _ hm; cases hm
  | cons jm rest ih =>
    intro m r0 l hnd hm hp h
    rw [List.map_cons, List.nodup_cons] at hnd
    simp only [mmRun] at h
    rcases List.mem_cons.mp hm with rfl | hm'
    · simp only [hp] at h
      obtain ⟨l', hl', rfl⟩ := Option.map_eq_some'.mp h
      have hz : l'.filter (fun r => r.junctionTable.name == m.name) = [] := by
        rw [List.filter_eq_nil_iff]
        intro r hr
        obtain ⟨m', hm', hp'⟩ := mmRun_sound hl' r hr
        have : r.junctionTable.name = m'.name := pj_junction_name hp'
        simp only [this, ne_eq, beq_iff_eq]
        intro hcontra
        exact hnd.1 (hcontra ▸ List.mem_map.mpr ⟨m', hm', rfl⟩)
      have hname : (r0.junctionTable.name == m.name) = true :=
        beq_iff_eq.mpr (pj_junction_name hp)
      simp [List.filter_cons, hname, hz]
    · split at h
      · cases h
      · exact ih hnd.2 hm' hp h
      · next r' heq =>
        obtain ⟨l', hl', rfl⟩ := Option.map_eq_some'.mp h
        have hr'name : r'.junctionTable.name = jm.name := pj_junction_name heq
        have hjm : jm.name ≠ m.name := by
          intro hcontra
          exact hnd.1 (hcontra ▸ List.mem_map.mpr ⟨m, hm', rfl⟩)
        have : (r'.junctionTable.name == m.name) = false := by
          rw [hr'name]; exact beq_eq_false_iff_ne.mpr hjm
        simp [List.filter_cons, this]
        exact ih hnd.2 hm' hp hl'

/-- The condition under which otmStep appends a record for a given origin
model and field, together with the shape of the appended record. -/
def otmEmits (models : List Model) (model : Model) (field : Field) (r : OneToManyRecord) : Prop :=
  field.kind = "object" ∧ field.isList = true ∧
  ∃ rm, models.find? (fun m => m.name == field.type) = some rm ∧
  ∃ rf, rm.fields.find? (fun f =>
      f.kind == "object" && !f.isList && f.type == model.name && f.relationName == field.relationName) = some rf ∧
  r = ⟨⟨rm.name, rf.name⟩, ⟨model.name, field.name⟩⟩

theorem otmStep_sound {models : List Model} {model : Model} {acc : List OneToManyRecord}
    {field : Field} {r : OneToManyRecord} (h : r ∈ otmStep models model acc field) :
    r ∈ acc ∨ otmEmits models model field r := by
  unfold otmStep at h
  split at h
  · next hguard =>
    simp only [Bool.and_eq_true, beq_iff_eq] at hguard
    split at h
    · exact Or.inl h
    · next rm hrm =>
      split at h
      · exact Or.inl h
      · next rf hrf =>
        split at h
        · exact Or.inl h
        · rcases List.mem_append.mp h with h' | h'
          · exact Or.inl h'
          · exact Or.inr ⟨hguard.1.1, hguard.1.2, rm, hrm, rf, hrf, List.mem_singleton.mp h'⟩
  · exact Or.inl h

theorem otmStep_mono {models : List Model} {model : Model} {acc : List OneToManyRecord}
    {field : Field} {r : OneToManyRecord} (h : r ∈ acc) : r ∈ otmStep models model acc field := by
  unfold otmStep
  split
  · split
    · exact h
    · split
      · exact h
      · split
        · exact h
        · exact List.mem_append_left _ h
  · exact h

theorem otmStep_emits {models : List Model} {model : Model} {acc : List OneToManyRecord}
    {field : Field} (hk : field.kind = "object") (hl : field.isList = true)
    {rm : Model} (hrm : models.find? (fun m => m.name == field.type) = some rm)
    {rf : Field} (hrf : rm.fields.find? (fun f =>
      f.kind == "object" && !f.isList && f.type == model.name && f.relationName == field.relationName) = some rf) :
    (⟨⟨rm.name, rf.name⟩, ⟨model.name, field.name⟩⟩ : OneToManyRecord) ∈ otmStep models model acc field := by
  have hany : models.any (fun m => m.name == field.type) = true := by
    rw [List.any_eq_true]
    refine ⟨rm, List.mem_of_find?_eq_some hrm, ?_⟩
    simpa using List.find?_some hrm
  have hcond : (field.kind == "object" && field.isList && models.any (fun m => m.name == field.type)) = true := by
    simp [hk, hl, hany]
  unfold otmStep
  split
  · split
    · next heq => rw [hrm] at heq; cases heq
    · next rm' heq =>
      rw [hrm] at heq
      obtain rfl : rm = rm' := Option.some.inj heq
      split
      · next heq2 => rw [hrf] at heq2; cases heq2
      · next rf' heq2 =>
        rw [hrf] at heq2
        obtain rfl : rf = rf' := Option.some.inj heq2
        split
        · next hdup =>
          obtain ⟨rel, hrel, hp⟩ := List.any_eq_true.mp hdup
          simp only [Bool.and_eq_true, beq_iff_eq] at hp
          have : rel = ⟨⟨rm.name, rf.name⟩, ⟨model.name, field.name⟩⟩ := by
            obtain ⟨⟨mn, mf⟩, ⟨o1, o2⟩⟩ := rel
            simp only at hp
            simp [hp.1.1.1, hp.1.1.2, hp.1.2, hp.2]
          exact this ▸ hrel
        · exact List.mem_append_right _ (List.mem_singleton.mpr rfl)
  · next hguard => exact absurd hcond hguard

theorem otmFields_mono {models : List Model} {model : Model} :
    ∀ {fs : List Field} {acc : List OneToManyRecord} {r : OneToManyRecord},
    r ∈ acc → r ∈ otmFields models model acc fs := by
  intro fs
  induction fs with
  | nil => intro acc r h; exact h
  | cons f fs ih => intro acc r h; exact ih (otmStep_mono h)

theorem otmFields_sound {models : List Model} {model : Model} :
    ∀ {fs : List Field} {acc : List OneToManyRecord} {r : OneToManyRecord},
    r ∈ otmFields models model acc fs →
    r ∈ acc ∨ ∃ f ∈ fs, otmEmits models model f r := by
  intro fs
  induction fs with
  | nil => intro acc r h; exact Or.inl h
  | cons f fs ih =>
    intro acc r h
    rcases ih h with h' | ⟨f', hf', he⟩
    · rcases otmStep_sound h' with h'' | he
      · exact Or.inl h''
      · exact Or.inr ⟨f, List.mem_cons_self _ _, he⟩
    · exact Or.inr ⟨f', List.mem_cons_of_mem _ hf', he⟩

theorem otmFields_mem {models : List Model} {model : Model} :
    ∀ {fs : List Field} {acc : List OneToManyRecord} {field : Field}, field ∈ fs →
    field.kind = "object" → field.isList = true →
    ∀ {rm : Model}, models.find? (fun m => m.name == field.type) = some rm →
    ∀ {rf : Field}, rm.fields.find? (fun f =>
      f.kind == "object" && !f.isList && f.type == model.name && f.relationName == field.relationName) = some rf →
    (⟨⟨rm.name, rf.name⟩, ⟨model.name, field.name⟩⟩ : OneToManyRecord) ∈ otmFields models model acc fs := by
  intro fs
  induction fs with
  | nil => intro acc field hmem; cases hmem
  | cons f fs ih =>
    intro acc field hmem hk hl rm hrm rf hrf
    rcases List.mem_cons.mp hmem with rfl | hmem'
    · simp only [otmFields]
      exact otmFields_mono (otmStep_emits hk hl hrm hrf)
    · simp only [otmFields]
      exact ih hmem' hk hl hrm hrf

theorem otmModels_mono {models : List Model} :
    ∀ {ms : List Model} {acc : List OneToManyRecord} {r : OneToManyRecord},
    r ∈ acc → r ∈ otmModels models acc ms := by
  intro ms
  induction ms with
  | nil => intro acc r h; exact h
  | cons m ms ih => intro acc r h; exact ih (otmFields_mono h)

theorem otmModels_sound {models : List Model} :
    ∀ {ms : List Model} {acc : List OneToManyRecord} {r : OneToManyRecord},
    r ∈ otmModels models acc ms →
    r ∈ acc ∨ ∃ model ∈ ms, ∃ f ∈ model.fields, otmEmits models model f r := by
  intro ms
  induction ms with
  | nil => intro acc r h; exact Or.inl h
  | cons m ms ih =>
    intro acc r h
    rcases ih h with h' | ⟨model, hmodel, f, hf, he⟩
    · rcases otmFields_sound h' with h'' | ⟨f, hf, he⟩
      · exact Or.inl h''
      · exact Or.inr ⟨m, List.mem_cons_self _ _, f, hf, he⟩
    · exact Or.inr ⟨model, List.mem_cons_of_mem _ hmodel, f, hf, he⟩

theorem otmModels_mem {models : List Model} :
    ∀ {ms : List Model} {acc : List OneToManyRecord} {model : Model}, model ∈ ms →
    ∀ {field : Field}, field ∈ model.fields →
    field.kind = "object" → field.isList = true →
    ∀ {rm : Model}, models.find? (fun m => m.name == field.type) = some rm →
    ∀ {rf : Field}, rm.fields.find? (fun f =>
      f.kind == "object" && !f.isList && f.type == model.name && f.relationName == field.relationName) = some rf →
    (⟨⟨rm.name, rf.name⟩, ⟨model.name, field.name⟩⟩ : OneToManyRecord) ∈ otmModels models acc ms := by
  intro ms
  induction ms with
  | nil => intro acc model hmem; cases hmem
  | cons m ms ih =>
    intro acc model hmem field hf hk hl rm hrm rf hrf
    rcases List.mem_cons.mp hmem with rfl | hmem'
    · simp only [otmModels]
      exact otmModels_mono (otmFields_mem hf hk hl hrm hrf)
    · simp only [otmModels]
      exact ih hmem' hf hk hl hrm hrf

theorem otm_sound {g : DMMF} {r : OneToManyRecord}
    (h : r ∈ (getOneToManyRelations g).manyToOne) :
    ∃ model ∈ g.datamodel.models, ∃ f ∈ model.fields, otmEmits g.datamodel.models model f r := by
  rcases otmModels_sound h with h' | h'
  · cases h'
  · exact h'

theorem ooStep_pairwise {models : List Model} {model : Model} {acc : List OneToOneRecord}
    {field : Field}
    (h : List.Pairwise (fun a b => ¬(b.table_one = a.table_two ∧ b.table_two = a.table_one)) acc) :
    List.Pairwise (fun a b => ¬(b.table_one = a.table_two ∧ b.table_two = a.table_one))
      (ooStep models model acc field) := by
  unfold ooStep
  split
  · split
    · exact h
    · split
      · exact h
      · next relatedField heq2 =>
        split
        · exact h
        · next hdup =>
          rw [List.pairwise_append]
          refine ⟨h, List.pairwise_singleton _ _, ?_⟩
          intro a ha b hb
          rw [List.mem_singleton] at hb
          subst hb
          rintro ⟨h1, h2⟩
          apply hdup
          rw [List.any_eq_true]
          refine ⟨a, ha, ?_⟩
          simp only at h1 h2
          simp only [← h1, ← h2]
          simp
  · exact h

theorem ooFields_pairwise {models : List Model} {model : Model} :
    ∀ {fs : List Field} {acc : List OneToOneRecord},
    List.Pairwise (fun a b => ¬(b.table_one = a.table_two ∧ b.table_two = a.table_one)) acc →
    List.Pairwise (fun a b => ¬(b.table_one = a.table_two ∧ b.table_two = a.table_one))
      (ooFields models model acc fs) := by
  intro fs
  induction fs with
  | nil => intro acc h; exact h
  | cons f fs ih => intro acc h; exact ih (ooStep_pairwise h)

theorem ooModels_pairwise {models : List Model} :
    ∀ {ms : List Model} {acc : List OneToOneRecord},
    List.Pairwise (fun a b => ¬(b.table_one = a.table_two ∧ b.table_two = a.table_one)) acc →
    List.Pairwise (fun a b => ¬(b.table_one = a.table_two ∧ b.table_two = a.table_one))
      (ooModels models acc ms) := by
  intro ms
  induction ms with
  | nil => intro acc h; exact h
  | cons m ms ih => intro acc h; exact ih (ooFields_pairwise h)

/-! Claim theorems. -/

/-- C1, counterexample.  In the junction graph gMM, the entity J is
classified as a junction table (it is the junction of the single emitted
manyToMany record), yet it also appears as the many subject of a
oneToMany record, contradicting the claimed junction-exclusion
invariant. -/
theorem c1_junction_exclusion_cex :
    getManyToManyRelations gMM =
      some [⟨[⟨"A", "js"⟩, ⟨"B", "js"⟩], ⟨"J", [("AField", "aId"), ("BField", "bId")]⟩⟩] ∧
    (⟨⟨"J", "a"⟩, ⟨"A", "js"⟩⟩ : OneToManyRecord) ∈ (getOneToManyRelations gMM).manyToOne :=
  ⟨by decide, by decide⟩

/-- C1, amended.  No junction exclusion is performed: an entity m that is
classified as a junction table (processJunction emits a record for it)
still appears as the many subject of a oneToMany record whenever some
entity rm holds a list field resolving to m with a reciprocal non-list
field on m, while the junction record for m is also emitted. -/
theorem c1_junction_not_excluded (g : DMMF) (m : Model) (hm : m ∈ g.datamodel.models)
    (r0 : MMRecord) (hj : processJunction g m = some (some r0))
    (rm : Model) (hrm : rm ∈ g.datamodel.models) (fl : Field) (hfl : fl ∈ rm.fields)
    (hk : fl.kind = "object") (hl : fl.isList = true)
    (hfind : g.datamodel.models.find? (fun mm => mm.name == fl.type) = some m)
    (rf : Field) (hrf : m.fields.find? (fun f =>
      f.kind == "object" && !f.isList && f.type == rm.name && f.relationName == fl.relationName) = some rf) :
    (⟨⟨m.name, rf.name⟩, ⟨rm.name, fl.name⟩⟩ : OneToManyRecord) ∈
      (getOneToManyRelations g).manyToOne ∧
    ∀ l, getManyToManyRelations g = some l → r0 ∈ l := by
  constructor
  · unfold getOneToManyRelations
    exact otmModels_mem hrm hfl hk hl hfind hrf
  · intro l hml
    unfold getManyToManyRelations at hml
    exact mmRun_mem (List.mem_filter.mpr ⟨hm, pj_two_object_fields hj⟩) hj hml

/-- C1, witness for the amended theorem at the concrete graph gMM. -/
theorem c1_junction_not_excluded_w :
    (⟨⟨"J", "a"⟩, ⟨"A", "js"⟩⟩ : OneToManyRecord) ∈ (getOneToManyRelations gMM).manyToOne :=
  (c1_junction_not_excluded gMM jModel (by decide)
    ⟨[⟨"A", "js"⟩, ⟨"B", "js"⟩], ⟨"J", [("AField", "aId"), ("BField", "bId")]⟩⟩ (by decide)
    aModel (by decide) (fld "js" "object" "J" true (some "AJ")) (by decide) rfl rfl
    (by decide) (fld "a" "object" "A" false (some "AJ")) (by decide)).1

/-- C2, counterexample.  For the junction graph gMM the manyToMany output
holds exactly one record for the junction J carrying both sides in its
relationTable, not two directional records. -/
theorem c2_two_directional_cex :
    getManyToManyRelations gMM =
      some [⟨[⟨"A", "js"⟩, ⟨"B", "js"⟩], ⟨"J", [("AField", "aId"), ("BField", "bId")]⟩⟩] ∧
    (getManyToManyRelations gMM).map List.length = some 1 :=
  ⟨by decide, by decide⟩

/-- C2, amended.  For every junction table of a graph with unique model
names, the manyToMany output contains exactly one record naming that
junction, and that record is the one built by processJunction (carrying
both directional sides in its relationTable); no mirrored duplicate is
emitted. -/
theorem c2_single_mm_record (g : DMMF)
    (hN : (g.datamodel.models.map Model.name).Nodup)
    (m : Model) (hm : m ∈ g.datamodel.models)
    (r0 : MMRecord) (hj : processJunction g m = some (some r0))
    (l : List MMRecord) (hml : getManyToManyRelations g = some l) :
    (l.filter (fun r => r.junctionTable.name == m.name)).length = 1 ∧
    ∀ r ∈ l, r.junctionTable.name = m.name → r = r0 := by
  unfold getManyToManyRelations at hml
  have hmem : m ∈ g.datamodel.models.filter
      (fun mm => (mm.fields.filter (fun f => f.kind == "object")).length == 2) :=
    List.mem_filter.mpr ⟨hm, pj_two_object_fields hj⟩
  have hnd : ((g.datamodel.models.filter
      (fun mm => (mm.fields.filter (fun f => f.kind == "object")).length == 2)).map Model.name).Nodup :=
    List.Nodup.sublist (List.Sublist.map Model.name (List.filter_sublist _)) hN
  constructor
  · exact mmRun_count hnd hmem hj hml
  · intro r hr hname
    obtain ⟨m', hm', hp'⟩ := mmRun_sound hml r hr
    have hmeq : m' = m := nodup_map_inj hN (List.mem_of_mem_filter hm') hm
      (by rw [← pj_junction_name hp', hname])
    subst hmeq
    rw [hj] at hp'
    exact (Option.some.inj (Option.some.inj hp')).symm

/-- C2, witness for the amended theorem at the concrete graph gMM. -/
theorem c2_single_mm_record_w :
    (([⟨[⟨"A", "js"⟩, ⟨"B", "js"⟩], ⟨"J", [("AField", "aId"), ("BField", "bId")]⟩⟩] :
        List MMRecord).filter (fun r => r.junctionTable.name == jModel.name)).length = 1 :=
  (c2_single_mm_record gMM (by decide) jModel (by decide)
    ⟨[⟨"A", "js"⟩, ⟨"B", "js"⟩], ⟨"J", [("AField", "aId"), ("BField", "bId")]⟩⟩ (by decide)
    [⟨[⟨"A", "js"⟩, ⟨"B", "js"⟩], ⟨"J", [("AField", "aId"), ("BField", "bId")]⟩⟩] (by decide)).1

/-- C3: the claim says a junction candidate with resolved reciprocals but
fewer than two scalar fields is skipped without error; the code instead
dereferences name on an out-of-range scalar-field index and throws.  On
gCrash (junction J with zero scalar fields) the whole run aborts: the
embedded getManyToManyRelations returns none, the model of a thrown
TypeError, and the per-model scalar counts confirm J has no scalar
field. -/
theorem c3_missing_scalars_crash :
    getManyToManyRelations gCrash = none ∧
    gCrash.datamodel.models.map (fun m => (m.fields.filter (fun f => f.kind == "scalar")).length) =
      [1, 1, 0] ∧
    processJunction gCrash jCrash = none :=
  ⟨by decide, by decide, by decide⟩

/-- C4, counterexample.  On Scenario A the origin list field is
Department.employees with reciprocal Employee.department; the claim
requires the emitted record to set one to the related entity and its
reciprocal field (Employee, department), but the output record sets
one to (Department, employees) and no record has the claimed one side. -/
theorem c4_swapped_assignment_cex :
    (getOneToManyRelations gScenA).manyToOne =
      [⟨⟨"Employee", "department"⟩, ⟨"Department", "employees"⟩⟩] ∧
    ((getOneToManyRelations gScenA).manyToOne.any (fun r =>
      r.one.name == "Employee" && r.one.field == "department")) = false :=
  ⟨by decide, by decide⟩

/-- C4, amended.  For every origin field of kind object with isList true
whose type resolves (via find?) to a related entity rm having a first
reciprocal non-list object field rf back to the origin with matching
relationName, the oneToMany output contains the record with
one = (origin entity, origin list field) and many = (related entity,
reciprocal field) — the opposite assignment of the claim's wording. -/
theorem c4_one_many_assignment (g : DMMF) (model : Model) (hm : model ∈ g.datamodel.models)
    (field : Field) (hf : field ∈ model.fields)
    (hk : field.kind = "object") (hl : field.isList = true)
    (rm : Model) (hrm : g.datamodel.models.find? (fun m => m.name == field.type) = some rm)
    (rf : Field) (hrf : rm.fields.find? (fun f =>
      f.kind == "object" && !f.isList && f.type == model.name && f.relationName == field.relationName) = some rf) :
    (⟨⟨rm.name, rf.name⟩, ⟨model.name, field.name⟩⟩ : OneToManyRecord) ∈
      (getOneToManyRelations g).manyToOne := by
  unfold getOneToManyRelations
  exact otmModels_mem hm hf hk hl hrm hrf

/-- C4, witness for the amended theorem on Scenario A. -/
theorem c4_one_many_assignment_w :
    (⟨⟨"Employee", "department"⟩, ⟨"Department", "employees"⟩⟩ : OneToManyRecord) ∈
      (getOneToManyRelations gScenA).manyToOne :=
  c4_one_many_assignment gScenA deptModel (by decide)
    (fld "employees" "object" "Employee" true (some "DeptEmp")) (by decide) rfl rfl
    empModel (by decide) (fld "department" "object" "Department" false (some "DeptEmp")) (by decide)

/-- C5: on the Scenario A graph the oneToMany output holds exactly one
record, equal to many = (Employee, department), one = (Department,
employees). -/
theorem c5_scenario_a :
    (getOneToManyRelations gScenA).manyToOne =
      [⟨⟨"Employee", "department"⟩, ⟨"Department", "employees"⟩⟩] := by
  decide

/-- C6: the oneToOne output never contains, at two distinct positions,
two records equal up to swapping sides; the order-independent duplicate
check of getOneToOneRelations suppresses mirrored pairs. -/
theorem c6_one_to_one_no_swap_dup (g : DMMF) :
    List.Pairwise (fun a b => ¬(b.table_one = a.table_two ∧ b.table_two = a.table_one))
      (getOneToOneRelations g) := by
  unfold getOneToOneRelations
  exact ooModels_pairwise List.Pairwise.nil

/-- C6, concrete instance at the junction graph gMM. -/
theorem c6_one_to_one_no_swap_dup_w :
    List.Pairwise (fun a b => ¬(b.table_one = a.table_two ∧ b.table_two = a.table_one))
      (getOneToOneRelations gMM) :=
  c6_one_to_one_no_swap_dup gMM

/-- C7: an entity with exactly two object fields where at least one
resolved referenced entity lacks a reciprocal list-typed object field
typed with that entity's name is skipped by the many-to-many classifier
(processJunction returns the skip value), and, given unique model names,
no manyToMany record names it as junction.  Its fields remain eligible
for the other classifiers, which never consult junction status. -/
theorem c7_boundary_not_junction (g : DMMF)
    (hN : (g.datamodel.models.map Model.name).Nodup)
    (m : Model) (hm : m ∈ g.datamodel.models) (f1 f2 : Field)
    (hobj : m.fields.filter (fun f => f.kind == "object") = [f1, f2])
    (hdrop :
      (∃ rm1, g.datamodel.models.find? (fun mm => mm.name == f1.type) = some rm1 ∧
        rm1.fields.find? (fun f => f.kind == "object" && f.type == m.name && f.isList) = none) ∨
      (∃ rm2, g.datamodel.models.find? (fun mm => mm.name == f2.type) = some rm2 ∧
        rm2.fields.find? (fun f => f.kind == "object" && f.type == m.name && f.isList) = none)) :
    processJunction g m = some none ∧
    ∀ l, getManyToManyRelations g = some l → ∀ r ∈ l, r.junctionTable.name ≠ m.name := by
  have hpj : processJunction g m = some none := by
    unfold processJunction
    rcases hdrop with ⟨rm1, hrm1, hnone⟩ | ⟨rm2, hrm2, hnone⟩
    · simp only [hobj, hrm1]
      cases hfind2 : g.datamodel.models.find? (fun mm => mm.name == f2.type) with
      | none => rfl
      | some rm2 => simp only [hnone]
    · simp only [hobj]
      cases hfind1 : g.datamodel.models.find? (fun mm => mm.name == f1.type) with
      | none => rfl
      | some rm1 =>
        simp only [hrm2]
        cases hrecip1 : rm1.fields.find? (fun f => f.kind == "object" && f.type == m.name && f.isList) with
        | none => rfl
        | some rf1 => simp only [hnone]
  refine ⟨hpj, ?_⟩
  intro l hml r hr hname
  unfold getManyToManyRelations at hml
  obtain ⟨m', hm', hp'⟩ := mmRun_sound hml r hr
  have hmeq : m' = m := nodup_map_inj hN (List.mem_of_mem_filter hm') hm
    (by rw [← pj_junction_name hp', hname])
  subst hmeq
  rw [hpj] at hp'
  exact Option.noConfusion (Option.some.inj hp')

/-- C7, witness on the boundary graph gC7 (A lacks the reciprocal list
field): M is skipped. -/
theorem c7_boundary_not_junction_w : processJunction gC7 mC7 = some none :=
  (c7_boundary_not_junction gC7 (by decide) mC7 (by decide)
    (fld "x" "object" "A" false none) (fld "y" "object" "B" false none) (by decide)
    (Or.inl ⟨⟨"A", [fld "id" "scalar" "Int" false none]⟩, by decide, by decide⟩)).1

/-- C9: a candidate whose object field has an unresolvable type, or whose
related entity has no reciprocal field of the one-to-many shape, is
silently dropped: no oneToMany record mentions the field on either side
in the unresolvable case, no oneToMany record has it as the one side in
the missing-reciprocal case, and the many-to-many classifier skips a
two-object-field model containing an unresolvable field without
throwing.  Classification of the remaining candidates proceeds since the
loops just continue. -/
theorem c9_silent_drop (g : DMMF)
    (hndM : (g.datamodel.models.map Model.name).Nodup)
    (hndF : ∀ mm ∈ g.datamodel.models, (mm.fields.map Field.name).Nodup)
    (m : Model) (hm : m ∈ g.datamodel.models) (f : Field) (hf : f ∈ m.fields)
    (hk : f.kind = "object") :
    ((∀ mm ∈ g.datamodel.models, mm.name ≠ f.type) →
      (∀ r ∈ (getOneToManyRelations g).manyToOne,
        r.one ≠ ⟨m.name, f.name⟩ ∧ r.many ≠ ⟨m.name, f.name⟩) ∧
      (∀ f1 f2, m.fields.filter (fun ff => ff.kind == "object") = [f1, f2] →
        f = f1 ∨ f = f2 → processJunction g m = some none)) ∧
    (∀ rm, g.datamodel.models.find? (fun mm => mm.name == f.type) = some rm →
      rm.fields.find? (fun fr =>
        fr.kind == "object" && !fr.isList && fr.type == m.name && fr.relationName == f.relationName) = none →
      ∀ r ∈ (getOneToManyRelations g).manyToOne, r.one ≠ ⟨m.name, f.name⟩) := by
  constructor
  · intro hunres
    have hfindnone : g.datamodel.models.find? (fun mm => mm.name == f.type) = none := by
      rw [List.find?_eq_none]
      intro mm hmm
      simp only [beq_iff_eq]
      exact hunres mm hmm
    constructor
    · intro r hr
      obtain ⟨model', hmodel', f', hf', hk', hl', rm, hrm, rf, hrf, hreq⟩ := otm_sound hr
      subst hreq
      constructor
      · intro hone
        have h1 : model'.name = m.name := congrArg RelEnd.name hone
        have h2 : f'.name = f.name := congrArg RelEnd.field hone
        have hmodel : model' = m := nodup_map_inj hndM hmodel' hm h1
        subst hmodel
        have hfeq : f' = f := nodup_map_inj (hndF model' hmodel') hf' hf h2
        subst hfeq
        rw [hfindnone] at hrm
        cases hrm
      · intro hmany
        have h1 : rm.name = m.name := congrArg RelEnd.name hmany
        have h2 : rf.name = f.name := congrArg RelEnd.field hmany
        have hrmmem : rm ∈ g.datamodel.models := List.mem_of_find?_eq_some hrm
        have hrmeq : rm = m := nodup_map_inj hndM hrmmem hm h1
        subst hrmeq
        have hrfmem : rf ∈ rm.fields := List.mem_of_find?_eq_some hrf
        have hrfeq : rf = f := nodup_map_inj (hndF rm hm) hrfmem hf h2
        have hpred := List.find?_some hrf
        rw [hrfeq] at hpred
        simp only [Bool.and_eq_true, beq_iff_eq] at hpred
        exact hunres model' hmodel' hpred.1.2.symm
    · intro f1 f2 hobj hor
      unfold processJunction
      rcases hor with rfl | rfl
      · simp only [hobj, hfindnone]
      · simp only [hobj]
        cases hfind1 : g.datamodel.models.find? (fun mm => mm.name == f1.type) with
        | none => rfl
        | some rm1 =>
          simp only [hfindnone]
  · intro rm hrm hnorecip r hr hone
    obtain ⟨model', hmodel', f', hf', hk', hl', rm', hrm', rf, hrf, hreq⟩ := otm_sound hr
    subst hreq
    have h1 : model'.name = m.name := congrArg RelEnd.name hone
    have h2 : f'.name = f.name := congrArg RelEnd.field hone
    have hmodel : model' = m := nodup_map_inj hndM hmodel' hm h1
    subst hmodel
    have hfeq : f' = f := nodup_map_inj (hndF model' hmodel') hf' hf h2
    subst hfeq
    rw [hrm] at hrm'
    obtain rfl : rm = rm' := Option.some.inj hrm'
    rw [hnorecip] at hrf
    cases hrf

/-- C9, witness on gDrop: the two-object-field model M holding the
unresolvable field x typed Ghost is skipped by the many-to-many
classifier without error. -/
theorem c9_silent_drop_w : processJunction gDrop mDrop = some none :=
  ((c9_silent_drop gDrop (by decide) (by decide) mDrop (by decide)
    (fld "x" "object" "Ghost" false none) (by decide) rfl).1 (by decide)).2
    (fld "x" "object" "Ghost" false none) (fld "y" "object" "A" false none)
    (by decide) (Or.inl rfl)

/-- C10: when both object fields of a two-object-field entity reference
the same entity (find? resolves both to em, whose first matching
reciprocal list field is rf), the emitted record lists em and rf twice in
relationTable, and the two computed junctionTable keys collide, leaving a
single key whose value is the side-B scalar pick (side A's pick vA is
overwritten by vB). -/
theorem c10_self_junction_overwrite (g : DMMF) (m : Model) (f1 f2 : Field)
    (hobj : m.fields.filter (fun f => f.kind == "object") = [f1, f2])
    (hty : f2.type = f1.type)
    (em : Model) (hem : g.datamodel.models.find? (fun mm => mm.name == f1.type) = some em)
    (rf : Field) (hrf : em.fields.find? (fun f => f.kind == "object" && f.type == m.name && f.isList) = some rf)
    (vA : String) (hvA : jsPickScalar (m.fields.filter (fun f => f.kind == "scalar")) em.name 0 = some vA)
    (vB : String) (hvB : jsPickScalar (m.fields.filter (fun f => f.kind == "scalar")) em.name 1 = some vB) :
    processJunction g m =
      some (some ⟨[⟨em.name, rf.name⟩, ⟨em.name, rf.name⟩],
        ⟨m.name, [(em.name ++ "Field", vB)]⟩⟩) := by
  have hem2 : g.datamodel.models.find? (fun mm => mm.name == f2.type) = some em := by
    rw [hty]; exact hem
  have hins : insertObj (insertObj [] (em.name ++ "Field") vA) (em.name ++ "Field") vB =
      [(em.name ++ "Field", vB)] := by
    simp [insertObj]
  unfold processJunction
  simp only [hobj, hem, hem2, hrf, hvA, hvB, hins]

/-- Characterization of the scalar pick: when the indexed fallback
position exists and scalar names are nonempty, the pick succeeds and
equals the first substring match when one exists, the indexed fallback
otherwise. -/
theorem jsPickScalar_spec (scalars : List Field) (relName : String) (idx : Nat)
    (hlen : idx < scalars.length)
    (hnm : ∀ f ∈ scalars, f.name ≠ "") :
    ∃ v, jsPickScalar scalars relName idx = some v ∧
      (∀ fa, scalars.find? (fun f => jsIncludes (jsToLowerCase f.name) (jsToLowerCase relName)) = some fa →
        v = fa.name) ∧
      (scalars.find? (fun f => jsIncludes (jsToLowerCase f.name) (jsToLowerCase relName)) = none →
        ∀ fa, scalars[idx]? = some fa → v = fa.name) := by
  unfold jsPickScalar
  cases hfa : scalars.find? (fun f => jsIncludes (jsToLowerCase f.name) (jsToLowerCase relName)) with
  | some fa =>
    dsimp only
    rw [if_neg (hnm fa (List.mem_of_find?_eq_some hfa))]
    refine ⟨fa.name, rfl, ?_, ?_⟩
    · intro fa' h'
      rw [Option.some.inj h']
    · intro hcontra
      exact Option.noConfusion hcontra
  | none =>
    cases hidx : scalars[idx]? with
    | none =>
      rw [List.getElem?_eq_getElem hlen] at hidx
      cases hidx
    | some fa =>
      refine ⟨fa.name, rfl, ?_, ?_⟩
      · intro fa' h'
        exact Option.noConfusion h'
      · intro _ fa' h'
        rw [Option.some.inj h']

/-- C8: for a junction with distinct related entities, resolved
reciprocals, at least two scalar fields all non-empty-named, the emitted
record's junctionTable entry for each side is the name of the first
scalar field (declaration order) whose lowercased name contains the
lowercased related entity name; when no scalar field matches, side A
falls back to the first scalar field and side B to the second. -/
theorem c8_scalar_pick (g : DMMF) (m : Model) (f1 f2 : Field)
    (hobj : m.fields.filter (fun f => f.kind == "object") = [f1, f2])
    (rm1 : Model) (hrm1 : g.datamodel.models.find? (fun mm => mm.name == f1.type) = some rm1)
    (rm2 : Model) (hrm2 : g.datamodel.models.find? (fun mm => mm.name == f2.type) = some rm2)
    (hne : rm1.name ≠ rm2.name)
    (rf1 : Field) (hrf1 : rm1.fields.find? (fun f => f.kind == "object" && f.type == m.name && f.isList) = some rf1)
    (rf2 : Field) (hrf2 : rm2.fields.find? (fun f => f.kind == "object" && f.type == m.name && f.isList) = some rf2)
    (hlen : 2 ≤ (m.fields.filter (fun f => f.kind == "scalar")).length)
    (hnm : ∀ f ∈ m.fields.filter (fun f => f.kind == "scalar"), f.name ≠ "") :
    ∃ r, processJunction g m = some (some r) ∧
      (∀ fa, (m.fields.filter (fun f => f.kind == "scalar")).find?
          (fun f => jsIncludes (jsToLowerCase f.name) (jsToLowerCase rm1.name)) = some fa →
        r.junctionTable.entries.lookup (rm1.name ++ "Field") = some fa.name) ∧
      ((m.fields.filter (fun f => f.kind == "scalar")).find?
          (fun f => jsIncludes (jsToLowerCase f.name) (jsToLowerCase rm1.name)) = none →
        ∀ fa, (m.fields.filter (fun f => f.kind == "scalar"))[0]? = some fa →
        r.junctionTable.entries.lookup (rm1.name ++ "Field") = some fa.name) ∧
      (∀ fb, (m.fields.filter (fun f => f.kind == "scalar")).find?
          (fun f => jsIncludes (jsToLowerCase f.name) (jsToLowerCase rm2.name)) = some fb →
        r.junctionTable.entries.lookup (rm2.name ++ "Field") = some fb.name) ∧
      ((m.fields.filter (fun f => f.kind == "scalar")).find?
          (fun f => jsIncludes (jsToLowerCase f.name) (jsToLowerCase rm2.name)) = none →
        ∀ fb, (m.fields.filter (fun f => f.kind == "scalar"))[1]? = some fb →
        r.junctionTable.entries.lookup (rm2.name ++ "Field") = some fb.name) := by
  have hkne : rm1.name ++ "Field" ≠ rm2.name ++ "Field" := fun h => hne (string_append_cancel h)
  have hbeqAB : ((rm1.name ++ "Field" : String) == rm2.name ++ "Field") = false :=
    beq_eq_false_iff_ne.mpr hkne
  have hbeqBA : ((rm2.name ++ "Field" : String) == rm1.name ++ "Field") = false :=
    beq_eq_false_iff_ne.mpr (Ne.symm hkne)
  obtain ⟨vA, hvA, hA1, hA2⟩ := jsPickScalar_spec
    (m.fields.filter (fun f => f.kind == "scalar")) rm1.name 0 (by omega) hnm
  obtain ⟨vB, hvB, hB1, hB2⟩ := jsPickScalar_spec
    (m.fields.filter (fun f => f.kind == "scalar")) rm2.name 1 (by omega) hnm
  refine ⟨⟨[⟨rm1.name, rf1.name⟩, ⟨rm2.name, rf2.name⟩],
    ⟨m.name, [(rm1.name ++ "Field", vA), (rm2.name ++ "Field", vB)]⟩⟩, ?_, ?_, ?_, ?_, ?_⟩
  · have hins : insertObj (insertObj [] (rm1.name ++ "Field") vA) (rm2.name ++ "Field") vB =
        [(rm1.name ++ "Field", vA), (rm2.name ++ "Field", vB)] := by
      simp [insertObj, hbeqAB]
    unfold processJunction
    simp only [hobj, hrm1, hrm2, hrf1, hrf2, hvA, hvB, hins]
  · intro fa h'
    have := hA1 fa h'
    simp [List.lookup, this]
  · intro hnone fa h0
    have := hA2 hnone fa h0
    simp [List.lookup, this]
  · intro fb h'
    have := hB1 fb h'
    simp [List.lookup, hbeqBA, this]
  · intro hnone fb h1
    have := hB2 hnone fb h1
    simp [List.lookup, hbeqBA, this]

/-- C8, witness on gMM: the junction J has scalar fields aId and bId, the
substring heuristic matches aId for side A and bId for side B, and the
emitted entries report them. -/
theorem c8_scalar_pick_w :
    ∃ r, processJunction gMM jModel = some (some r) ∧
      (∀ fa, (jModel.fields.filter (fun f => f.kind == "scalar")).find?
          (fun f => jsIncludes (jsToLowerCase f.name) (jsToLowerCase aModel.name)) = some fa →
        r.junctionTable.entries.lookup (aModel.name ++ "Field") = some fa.name) ∧
      ((jModel.fields.filter (fun f => f.kind == "scalar")).find?
          (fun f => jsIncludes (jsToLowerCase f.name) (jsToLowerCase aModel.name)) = none →
        ∀ fa, (jModel.fields.filter (fun f => f.kind == "scalar"))[0]? = some fa →
        r.junctionTable.entries.lookup (aModel.name ++ "Field") = some fa.name) ∧
      (∀ fb, (jModel.fields.filter (fun f => f.kind == "scalar")).find?
          (fun f => jsIncludes (jsToLowerCase f.name) (jsToLowerCase bModel.name)) = some fb →
        r.junctionTable.entries.lookup (bModel.name ++ "Field") = some fb.name) ∧
      ((jModel.fields.filter (fun f => f.kind == "scalar")).find?
          (fun f => jsIncludes (jsToLowerCase f.name) (jsToLowerCase bModel.name)) = none →
        ∀ fb, (jModel.fields.filter (fun f => f.kind == "scalar"))[1]? = some fb →
        r.junctionTable.entries.lookup (bModel.name ++ "Field") = some fb.name) :=
  c8_scalar_pick gMM jModel
    (fld "a" "object" "A" false (some "AJ")) (fld "b" "object" "B" false (some "BJ")) (by decide)
    aModel (by decide) bModel (by decide) (by decide)
    (fld "js" "object" "J" true (some "AJ")) (by decide)
    (fld "js" "object" "J" true (some "BJ")) (by decide)
    (by decide) (by decide)

/-- C10, witness on gSelf: the record for junction P lists Q twice and the
single colliding key QField holds the side-B fallback snd. -/
theorem c10_self_junction_overwrite_w :
    processJunction gSelf pModel =
      some (some ⟨[⟨"Q", "ps"⟩, ⟨"Q", "ps"⟩], ⟨"P", [("QField", "snd")]⟩⟩) :=
  c10_self_junction_overwrite gSelf pModel
    (fld "x" "object" "Q" false none) (fld "y" "object" "Q" false none) (by decide) rfl
    qModel (by decide) (fld "ps" "object" "P" true none) (by decide)
    "fst" (by decide) "snd" (by decide)

end SchemaSpec
